import Mathlib

/-!
Shallow embedding of the core of the `workie` repository (Go):
hook execution engine (`manager/manager.go`), configuration validation
(`config/config.go`), and the conflict-monitoring watch service
(`manager/watch_server.go` and the conflict scanner).

External effects (process spawning, `git` invocations, the OS clock,
`filepath.Match`) are modelled as explicit parameters; everything else is
translated from the source.
-/

namespace Workie

/-! ### Go string primitives -/

/-- Go `unicode.IsSpace`: the Unicode White_Space property, by code point. -/
def goIsSpace (c : Char) : Bool :=
  let v := c.toNat
  (9 ≤ v && v ≤ 13) || v = 32 || v = 0x85 || v = 0xA0 || v = 0x1680 ||
  (0x2000 ≤ v && v ≤ 0x200A) || v = 0x2028 || v = 0x2029 || v = 0x202F ||
  v = 0x205F || v = 0x3000

/-- ASCII lowercasing of a single character (Go `strings.ToLower` restricted
to the ASCII range, which covers every pattern the validator matches). -/
def goToLowerChar (c : Char) : Char :=
  match c with
  | 'A' => 'a' | 'B' => 'b' | 'C' => 'c' | 'D' => 'd' | 'E' => 'e'
  | 'F' => 'f' | 'G' => 'g' | 'H' => 'h' | 'I' => 'i' | 'J' => 'j'
  | 'K' => 'k' | 'L' => 'l' | 'M' => 'm' | 'N' => 'n' | 'O' => 'o'
  | 'P' => 'p' | 'Q' => 'q' | 'R' => 'r' | 'S' => 's' | 'T' => 't'
  | 'U' => 'u' | 'V' => 'v' | 'W' => 'w' | 'X' => 'x' | 'Y' => 'y'
  | 'Z' => 'z'
  | c => c

/-- Trim Go-whitespace from both ends of a character list
(Go `strings.TrimSpace`). -/
def goTrimList (l : List Char) : List Char :=
  ((l.dropWhile goIsSpace).reverse.dropWhile goIsSpace).reverse

/-- Go `strings.TrimSpace` on strings. -/
def goTrimSpace (s : String) : String := ⟨goTrimList s.data⟩

/-- Go `strings.ToLower` (ASCII range). -/
def goToLower (s : String) : String := ⟨s.data.map goToLowerChar⟩

/-- `isPrefixL n h`: the list `n` is a prefix of `h`. -/
def isPrefixL : List Char → List Char → Bool
  | [], _ => true
  | _ :: _, [] => false
  | a :: as, b :: bs => a == b && isPrefixL as bs

/-- `containsSub n h`: the list `n` occurs as a contiguous run inside `h`. -/
def containsSub (needle : List Char) : List Char → Bool
  | [] => needle.isEmpty
  | c :: rest => isPrefixL needle (c :: rest) || containsSub needle rest

/-- Go `strings.Contains s substr`. -/
def goContainsStr (s substr : String) : Bool := containsSub substr.data s.data

/-- Go `strings.TrimPrefix s pre`: drop `pre` from the front when present,
otherwise return `s` unchanged. -/
def goTrimPre (s pre : String) : String :=
  if isPrefixL pre.data s.data then ⟨s.data.drop pre.data.length⟩ else s

/-- Splitting around each leftmost non-overlapping occurrence of `sep`, with
explicit fuel so the recursion is structural (each step consumes at least one
character, so `l.length` fuel suffices for a non-empty separator). -/
def splitFuel (sep : List Char) : Nat → List Char → List (List Char)
  | _, [] => [[]]
  | 0, l => [l]
  | fuel + 1, c :: rest =>
      if isPrefixL sep (c :: rest) then
        [] :: splitFuel sep fuel ((c :: rest).drop sep.length)
      else
        match splitFuel sep fuel rest with
        | [] => [[c]]
        | h :: t => (c :: h) :: t

/-- Go `strings.Split s sep` for a non-empty separator (the only way the
code calls it). -/
def goSplit (s sep : String) : List String :=
  (splitFuel sep.data s.data.length s.data).map (fun l => ⟨l⟩)

/-! ### Hook execution engine (`manager/manager.go`) -/

/-- `HookExecutionResult` from `manager/manager.go`: the structured result of
one hook command execution.  `error` is the Go `error` field (`none` = nil);
durations are abstract clock units. -/
structure HookExecutionResult where
  index : Nat
  command : String
  success : Bool
  duration : Nat
  exitCode : Int
  stdout : String
  stderr : String
  error : Option String
  timedOut : Bool
deriving DecidableEq, Repr

/-- The Go `exec.Cmd.Run` error, as far as `executeHookCommand` inspects it:
an `*exec.ExitError` carrying an exit status, or any other error. -/
inductive ExecErr where
  | exitError (status : Int)
  | otherError (msg : String)
deriving DecidableEq, Repr

/-- Rendering of an `ExecErr` to the message stored in the result. -/
def execErrMsg : ExecErr → String
  | .exitError s => "exit status " ++ toString s
  | .otherError m => m

/-- Outcome of racing `cmd.Run()` against the timeout timer in
`executeHookCommand`: completion (with the Go error and the elapsed time)
or the timer firing first. -/
inductive RunOutcome where
  | completed (execErr : Option ExecErr) (elapsed : Nat)
  | timedOut
deriving DecidableEq, Repr

/-- `executeHookCommand` from `manager/manager.go`: builds a
`HookExecutionResult` for one command.  Parsing fails exactly when the
trimmed command is empty; on timeout the process is killed, `timedOut` is
set, the duration recorded is the timeout itself, and — the error not being
an `ExitError` — the exit code becomes 124; on completion the exit code is
taken from the `ExitError` when there is one.  Captured output is trimmed. -/
def executeHookCommand (command : String) (index timeout : Nat)
    (outcome : RunOutcome) (stdoutRaw stderrRaw : String) : HookExecutionResult :=
  let base : HookExecutionResult :=
    { index := index, command := command, success := false, duration := 0,
      exitCode := 0, stdout := "", stderr := "", error := none, timedOut := false }
  if goTrimSpace command = "" then
    { base with error := some "command parsing failed: empty command" }
  else
    match outcome with
    | .completed none elapsed =>
        { base with
          success := true, exitCode := 0, duration := elapsed,
          stdout := goTrimSpace stdoutRaw, stderr := goTrimSpace stderrRaw }
    | .completed (some e) elapsed =>
        { base with
          success := false, duration := elapsed,
          stdout := goTrimSpace stdoutRaw, stderr := goTrimSpace stderrRaw,
          error := some (execErrMsg e),
          exitCode := (match e with | .exitError s => s | .otherError _ => 0) }
    | .timedOut =>
        { base with
          success := false, timedOut := true, duration := timeout,
          stdout := goTrimSpace stdoutRaw, stderr := goTrimSpace stderrRaw,
          error := some ("command timed out after " ++ toString timeout),
          exitCode := 124 }

/-- The counters and result list accumulated by the `ExecuteHooks` loop
(the loop-relevant fields of `HookSummary`). -/
structure LoopState where
  successCount : Nat
  failedCount : Nat
  skippedCount : Nat
  results : List HookExecutionResult
deriving DecidableEq, Repr

/-- The command loop of `ExecuteHooks`, started at 0-based position `i`.
Each command is trimmed; a blank command only bumps `skippedCount`; otherwise
`run` (the embedding of `executeHookCommand` with its ambient process
outcomes) is invoked with the 1-based index and the trimmed command, and the
result is recorded as a success or a failure. -/
def executeHooksAux (run : Nat → String → HookExecutionResult) :
    Nat → List String → LoopState
  | _, [] => ⟨0, 0, 0, []⟩
  | i, cmd :: rest =>
    let t := goTrimSpace cmd
    if t = "" then
      let s := executeHooksAux run (i + 1) rest
      { s with skippedCount := s.skippedCount + 1 }
    else
      let r := run (i + 1) t
      let s := executeHooksAux run (i + 1) rest
      if r.success then
        { s with
          successCount := s.successCount + 1, results := r :: s.results }
      else
        { s with
          failedCount := s.failedCount + 1, results := r :: s.results }

/-- Outcome of `os.Stat` on the working directory in `ExecuteHooks`. -/
inductive StatOutcome where
  | ok
  | notExist
  | otherErr (msg : String)
deriving DecidableEq, Repr

/-- `ExecuteHooks` from `manager/manager.go`, as the stage-level error it
returns (`none` = nil).  An empty hook list returns nil at once, before the
working-directory check; a missing working directory fails the stage; after
the loop, an error is returned exactly when some command failed and none
succeeded. -/
def ExecuteHooks (run : Nat → String → HookExecutionResult)
    (hooks : List String) (workDirStat : StatOutcome) (hookType : String) :
    Option String :=
  if hooks.length = 0 then none
  else
    match workDirStat with
    | .notExist => some "hook execution failed: working directory does not exist"
    | .otherErr m =>
        some ("hook execution failed: cannot access working directory: " ++ m)
    | .ok =>
        let s := executeHooksAux run 0 hooks
        if s.failedCount > 0 && s.successCount == 0 then
          some ("all " ++ hookType ++ " hooks failed to execute - see above for details")
        else none

/-- Pointwise sum of two loop states, results appended in order. -/
def mergeState (a b : LoopState) : LoopState :=
  ⟨a.successCount + b.successCount, a.failedCount + b.failedCount,
   a.skippedCount + b.skippedCount, a.results ++ b.results⟩

/-! ### Configuration validation (`config/config.go`) -/

/-- The `dangerousPatterns` table of `validateCommandSecurity`:
substring pattern and diagnostic reason. -/
def dangerousPatterns : List (String × String) :=
  [("rm -rf /", "attempts to delete entire filesystem"),
   ("rm -rf /*", "attempts to delete entire filesystem"),
   (":()\x7b :|:& \x7d;:", "fork bomb pattern detected"),
   ("curl | sh", "pipes remote content directly to shell"),
   ("wget | sh", "pipes remote content directly to shell"),
   ("curl | bash", "pipes remote content directly to shell"),
   ("wget | bash", "pipes remote content directly to shell"),
   ("dd if=/dev/random", "potentially destructive disk operation"),
   ("mkfs", "filesystem formatting command detected"),
   ("fdisk", "disk partitioning command detected"),
   ("format c:", "Windows disk formatting command detected"),
   ("del /f /s /q c:\\", "Windows destructive deletion command"),
   ("deltree", "Windows destructive deletion command")]

/-- The `suspiciousNetworkPatterns` table of `validateCommandSecurity`. -/
def suspiciousNetworkPatterns : List String :=
  ["nc -l", "ncat -l", "netcat -l",
   "python -m http.server", "python3 -m http.server",
   "php -S"]

/-- The `privilegePatterns` table of `validateCommandSecurity`. -/
def privilegePatterns : List String :=
  ["sudo su", "sudo -i", "su -", "sudo bash", "sudo sh"]

/-- The `systemModificationPatterns` table of `validateCommandSecurity`. -/
def systemModificationPatterns : List String :=
  ["/etc/passwd", "/etc/shadow", "/etc/hosts", "/etc/sudoers",
   "c:\\windows\\system32", "/System/Library"]

/-- The first security category hit by `validateCommandSecurity` on the
lowercased command, in source order (dangerous, network, privilege, system
file), together with the reason text appended to the message. -/
def firstSecurityIssue (cmdLower : String) : Option (String × String) :=
  match dangerousPatterns.find? (fun pr => goContainsStr cmdLower pr.1) with
  | some pr => some ("potentially dangerous command", pr.2)
  | none =>
  match suspiciousNetworkPatterns.find? (fun p => goContainsStr cmdLower p) with
  | some _ => some ("potentially risky network command", "starts network service")
  | none =>
  match privilegePatterns.find? (fun p => goContainsStr cmdLower p) with
  | some _ =>
      some ("privilege escalation detected", "avoid using interactive shells in hooks")
  | none =>
  match systemModificationPatterns.find? (fun p => goContainsStr cmdLower p) with
  | some _ =>
      some ("system file modification detected",
            "modifying system files in hooks is not recommended")
  | none => none

/-- `validateCommandSecurity` from `config/config.go`: lowercases the command
and reports the first matching pattern category (`none` = nil error). -/
def validateCommandSecurity (hookType : String) (index : Nat) (cmd : String) :
    Option String :=
  (firstSecurityIssue (goToLower cmd)).map (fun pr =>
    pr.1 ++ " at index " ++ toString index ++ " in " ++ hookType ++ " hooks: " ++
      cmd ++ " - " ++ pr.2)

/-- Running bracket balance of a command for an open/close character pair,
as `validateCommandFormat` computes it (only the final count is tested). -/
def charBalance (openC closeC : Char) (cmd : String) : Int :=
  cmd.data.foldl (fun n c => if c = openC then n + 1 else if c = closeC then n - 1 else n) 0

/-- Number of occurrences of a character in a command (Go `strings.Count`
with a one-character substring). -/
def charCount (ch : Char) (cmd : String) : Nat :=
  (cmd.data.filter (fun c => c = ch)).length

/-- `validateCommandFormat` from `config/config.go`: unbalanced quotes,
parentheses, braces, brackets, stray control characters, and a trailing
backslash are rejected, in that order. -/
def validateCommandFormat (hookType : String) (index : Nat) (cmd : String) :
    Option String :=
  if charCount '\x27' cmd % 2 ≠ 0 then
    some ("unbalanced single quotes in command at index " ++ toString index ++
          " in " ++ hookType ++ " hooks: " ++ cmd)
  else if charCount '"' cmd % 2 ≠ 0 then
    some ("unbalanced double quotes in command at index " ++ toString index ++
          " in " ++ hookType ++ " hooks: " ++ cmd)
  else if charBalance '(' ')' cmd ≠ 0 then
    some ("unbalanced parentheses in command at index " ++ toString index ++
          " in " ++ hookType ++ " hooks: " ++ cmd)
  else if charBalance '\x7b' '\x7d' cmd ≠ 0 then
    some ("unbalanced braces in command at index " ++ toString index ++
          " in " ++ hookType ++ " hooks: " ++ cmd)
  else if charBalance '[' ']' cmd ≠ 0 then
    some ("unbalanced brackets in command at index " ++ toString index ++
          " in " ++ hookType ++ " hooks: " ++ cmd)
  else if cmd.data.any (fun c => c.toNat < 32 && c ≠ '\t' && c ≠ '\n' && c ≠ '\r') then
    some ("invalid control character in command at index " ++ toString index ++
          " in " ++ hookType ++ " hooks")
  else if cmd.data.getLast? = some '\\' then
    some ("command at index " ++ toString index ++ " in " ++ hookType ++
          " hooks ends with backslash - this might be incomplete: " ++ cmd)
  else none

/-- Whether a raw command starts with a space or tab byte, as
`validateHookCommands` tests before trimming. -/
def startsWithWS (cmd : String) : Bool :=
  match cmd.data with
  | [] => false
  | c :: _ => c = ' ' || c = '\t'

/-- The per-command loop of `validateHookCommands`: leading whitespace,
emptiness after trimming, duplicates (against the trimmed commands seen so
far), excessive byte length, then security and format validation, in source
order.  Returns the first error (`none` = nil). -/
def validateCmdsAux (hookType : String) : List String → Nat → List String → Option String
  | _, _, [] => none
  | seen, i, cmd :: rest =>
    if startsWithWS cmd then
      some ("command at index " ++ toString i ++ " in " ++ hookType ++
            " hooks starts with whitespace - this might be a formatting error: \x27" ++
            cmd ++ "\x27")
    else
      let c := goTrimSpace cmd
      if c = "" then
        some ("empty command at index " ++ toString i ++ " in " ++ hookType ++ " hooks")
      else if seen.contains c then
        some ("duplicate command in " ++ hookType ++ " hooks: " ++ c)
      else if 1000 < c.utf8ByteSize then
        some ("command at index " ++ toString i ++ " in " ++ hookType ++
              " hooks is suspiciously long (" ++ toString c.utf8ByteSize ++
              " characters) - please verify this is correct")
      else
        match validateCommandSecurity hookType i c with
        | some e => some e
        | none =>
          match validateCommandFormat hookType i c with
          | some e => some e
          | none => validateCmdsAux hookType (c :: seen) (i + 1) rest

/-- `validateHookCommands` from `config/config.go` for one hook stage. -/
def validateHookCommands (hookType : String) (commands : List String) : Option String :=
  validateCmdsAux hookType [] 0 commands

/-- The load-then-execute pipeline: `LoadConfig` validates the configuration
(`Config.Validate` → `validateHooks` → `validateHookCommands`) and returns an
error before any hook can run; only a successfully loaded configuration
reaches `ExecuteHooks`.  The value is the list of executed command results. -/
def loadThenExecute (run : Nat → String → HookExecutionResult)
    (hooks : List String) : List HookExecutionResult :=
  match validateHookCommands "post_create" hooks with
  | some _ => []
  | none => (executeHooksAux run 0 hooks).results

/-! ### Conflict scanner (`watch.go` part of package `manager`) -/

/-- `WorktreeInfo`: one parsed entry of `git worktree list --porcelain`. -/
structure WorktreeInfo where
  path : String
  branch : String
  commit : String
deriving DecidableEq, Repr

/-- `ConflictInfo`: one branch's conflict report.  `error` is the
`Error` field (`""` = absent, matching the Go zero value with `omitempty`);
`lastChecked` is an abstract timestamp. -/
structure ConflictInfo where
  branch : String
  worktreePath : String
  conflictFiles : List String
  lastChecked : Nat
  error : String
deriving DecidableEq, Repr

/-- Outcome of the `git merge-tree --write-tree --no-messages` probe run by
`checkBranchConflicts`: success (exit 0, no conflicts) or failure with the
captured stdout, stderr and the Go error message. -/
inductive ProbeOutcome where
  | ok
  | failed (stdout stderr errMsg : String)
deriving DecidableEq, Repr

/-- `parseConflictFiles` from the scanner: collects, in order and without
duplicates, the trimmed text after the first " in " of every line containing
"CONFLICT". -/
def parseConflictFiles (output : String) : List String :=
  (goSplit output "\n").foldl (fun files line =>
    if goContainsStr line "CONFLICT" then
      match (goSplit line " in ").get? 1 with
      | some f0 =>
          let f := goTrimSpace f0
          if ((f != "") && !(files.contains f)) then files ++ [f] else files
      | none => files
    else files) []

/-- `checkBranchConflicts` from the scanner: a failing probe whose stdout or
stderr mentions "conflict" yields a conflict entry with the files parsed from
the combined diagnostic text; any other failure yields an error entry; a
succeeding probe yields nothing. -/
def checkBranchConflicts (wt : WorktreeInfo) (checkTime : Nat) :
    ProbeOutcome → Option ConflictInfo
  | .ok => none
  | .failed out errS msg =>
    if goContainsStr errS "conflict" || goContainsStr out "conflict" then
      some { branch := wt.branch, worktreePath := wt.path,
             conflictFiles := parseConflictFiles (out ++ "\n" ++ errS),
             lastChecked := checkTime, error := "" }
    else
      some { branch := wt.branch, worktreePath := wt.path, conflictFiles := [],
             lastChecked := checkTime,
             error := "failed to check conflicts: " ++ msg }

/-- The per-worktree loop of `CheckRebaseConflicts`: detached-HEAD worktrees
(empty branch) and the main branch are skipped; every other worktree is
probed (`outcomeOf` supplies each probe's outcome) and contributes its entry,
in inventory order. -/
def checkRebaseConflicts (outcomeOf : WorktreeInfo → ProbeOutcome)
    (worktrees : List WorktreeInfo) (mainBranch : String) (checkTime : Nat) :
    List ConflictInfo :=
  worktrees.foldr (fun wt acc =>
    if wt.branch = "" ∨ wt.branch = mainBranch then acc
    else
      match checkBranchConflicts wt checkTime (outcomeOf wt) with
      | some ci => ci :: acc
      | none => acc) []

/-- `GetMainBranch` from the scanner.  `localExists` abstracts
`git show-ref --verify --quiet refs/heads/<b>` succeeding; `originHead`
abstracts `git symbolic-ref refs/remotes/origin/HEAD` (its output, or `none`
on error).  Returns the branch name and the Go error (always nil). -/
def getMainBranch (localExists : String → Bool) (originHead : Option String) :
    String × Option String :=
  match ["main", "master"].find? localExists with
  | some b => (b, none)
  | none =>
    match originHead with
    | some out => (goTrimPre (goTrimSpace out) "refs/remotes/origin/", none)
    | none => ("main", none)

/-- `HasNewConflicts` from the scanner: some entry of the new set has a
non-empty file list and a branch absent from the old set's
non-empty-file-list branches. -/
def HasNewConflicts (oldConflicts newConflicts : List ConflictInfo) : Bool :=
  let oldBranches :=
    (oldConflicts.filter (fun c => decide (0 < c.conflictFiles.length))).map (·.branch)
  newConflicts.any (fun c =>
    decide (0 < c.conflictFiles.length) && !(oldBranches.contains c.branch))

/-! ### Watch server (`manager/watch_server.go`) -/

/-- The watch section of the configuration (`Config.Watch`); a `none`
configuration models a nil `Config` or nil `Config.Watch`. -/
structure WatchCfg where
  notifyOnConflicts : Bool
  branchesToIgnore : List String
deriving DecidableEq, Repr

/-- `shouldIgnoreBranch`: some configured glob pattern matches the branch.
`globMatch` abstracts `filepath.Match` (errors read as no match). -/
def shouldIgnoreBranch (globMatch : String → String → Bool) (cfg : Option WatchCfg)
    (branch : String) : Bool :=
  match cfg with
  | none => false
  | some c => c.branchesToIgnore.any (fun pat => globMatch pat branch)

/-- The notification message built by `notifyConflicts` for one conflict. -/
def conflictMessage (c : ConflictInfo) : String :=
  let message := "⚠️ Workie: Branch \x27" ++ c.branch ++
    "\x27 would conflict rebasing on main"
  if 0 < c.conflictFiles.length then
    message ++ " (" ++ toString c.conflictFiles.length ++ " files)"
  else message

/-- `notifyConflicts` from `manager/watch_server.go`, as the list of
messages actually dispatched: nothing when the configuration disables
notifications; otherwise one message per conflict with a non-empty file list
and a branch not matched by the ignore patterns, provided the notify method
is "system" or "both". -/
def notifyConflicts (globMatch : String → String → Bool) (cfg : Option WatchCfg)
    (notifyMethod : String) (conflicts : List ConflictInfo) : List String :=
  if (match cfg with | some c => !c.notifyOnConflicts | none => false) then []
  else
    (conflicts.filter (fun c =>
        decide (0 < c.conflictFiles.length) &&
          !(shouldIgnoreBranch globMatch cfg c.branch))).filterMap
      (fun c =>
        if notifyMethod = "system" ∨ notifyMethod = "both" then
          some (conflictMessage c)
        else none)

/-- The mutable fields of `WatchServer` guarded by its lock. -/
structure WatchState where
  lastCheck : Nat
  lastConflicts : List ConflictInfo
  currentConflicts : List ConflictInfo
  checkCount : Nat
deriving DecidableEq, Repr

/-- `performCheck` from `manager/watch_server.go` as a state transformer:
the check counter is bumped up front; a failed scan leaves everything else
untouched and sends nothing; a completed scan stamps the time, shifts the
current conflicts into `lastConflicts`, installs the new ones, and — when
`HasNewConflicts` holds against the previous set — dispatches
`notifyConflicts` over the whole new set.  Returns the new state and the
dispatched messages. -/
def performCheck (globMatch : String → String → Bool) (cfg : Option WatchCfg)
    (notifyMethod : String) (scanResult : Except String (List ConflictInfo))
    (now : Nat) (st : WatchState) : WatchState × List String :=
  let st1 := { st with checkCount := st.checkCount + 1 }
  match scanResult with
  | .error _ => (st1, [])
  | .ok conflicts =>
    let st2 :=
      { st1 with
        lastCheck := now, lastConflicts := st.currentConflicts,
        currentConflicts := conflicts }
    let msgs :=
      if HasNewConflicts st.currentConflicts conflicts then
        notifyConflicts globMatch cfg notifyMethod conflicts
      else []
    (st2, msgs)

/-! ### Auxiliary definitions for the verification -/

/-- A pattern suitable for trimming-stability: non-empty, with non-space
first and last characters (true of every security pattern). -/
def patternOk (p : List Char) : Bool :=
  match p.head?, p.getLast? with
  | some a, some b => !goIsSpace a && !goIsSpace b
  | _, _ => false

/-- All pattern strings `validateCommandSecurity` matches against, in source
order. -/
def securityPatternStrings : List String :=
  dangerousPatterns.map Prod.fst ++ suspiciousNetworkPatterns ++
    privilegePatterns ++ systemModificationPatterns

/-- The dangerous-substring categories named by the specification: recursive
root deletion, the fork bomb, piping curl/wget output to a shell, disk
formatting, privilege-escalation shells. -/
def claimDangerousSubstrings : List String :=
  ["rm -rf /", "rm -rf /*", ":()\x7b :|:& \x7d;:",
   "curl | sh", "wget | sh", "curl | bash", "wget | bash",
   "mkfs", "fdisk", "sudo su"]

/-- Modelled from the claim wording for comparison with the code: the
newly-appeared conflicts, i.e. entries of the new set with a non-empty file
list whose branch is absent from the old set of conflicting branches. -/
def specNewlyAppeared (oldConflicts newConflicts : List ConflictInfo) : List ConflictInfo :=
  let oldBranches :=
    (oldConflicts.filter (fun c => decide (0 < c.conflictFiles.length))).map (fun c => c.branch)
  newConflicts.filter (fun c =>
    decide (0 < c.conflictFiles.length) && !(oldBranches.contains c.branch))

/-! ### General lemmas about the embedded functions -/

theorem executeHooksAux_append (run : Nat → String → HookExecutionResult)
    (l₁ l₂ : List String) (i : Nat) :
    executeHooksAux run i (l₁ ++ l₂) =
      mergeState (executeHooksAux run i l₁) (executeHooksAux run (i + l₁.length) l₂) := by
  induction l₁ generalizing i with
  | nil =>
      simp [executeHooksAux, mergeState]
  | cons c rest ih =>
      have hidx : i + (c :: rest).length = i + 1 + rest.length := by
        simp only [List.length_cons]; omega
      rw [List.cons_append, hidx]
      simp only [executeHooksAux, ih (i + 1)]
      by_cases h : goTrimSpace c = ""
      · rw [if_pos h, if_pos h]
        simp only [mergeState, LoopState.mk.injEq, List.cons_append, true_and, and_true]
        all_goals omega
      · rw [if_neg h, if_neg h]
        by_cases hs : (run (i + 1) (goTrimSpace c)).success
        · rw [if_pos hs, if_pos hs]
          simp only [mergeState, LoopState.mk.injEq, List.cons_append, true_and, and_true]
          all_goals omega
        · rw [if_neg hs, if_neg hs]
          simp only [mergeState, LoopState.mk.injEq, List.cons_append, true_and, and_true]
          all_goals omega

theorem executeHooksAux_successCount (run : Nat → String → HookExecutionResult)
    (l : List String) (i : Nat) :
    (executeHooksAux run i l).successCount =
      ((executeHooksAux run i l).results.filter (fun r => r.success)).length := by
  induction l generalizing i with
  | nil => simp [executeHooksAux]
  | cons c rest ih =>
      simp only [executeHooksAux]
      by_cases h : goTrimSpace c = ""
      · rw [if_pos h]; simpa using ih (i + 1)
      · rw [if_neg h]
        by_cases hs : (run (i + 1) (goTrimSpace c)).success
        · rw [if_pos hs]; simp [hs, List.filter_cons, ih (i + 1)]
        · rw [if_neg hs]; simp [hs, List.filter_cons, ih (i + 1)]

theorem executeHooksAux_failedCount (run : Nat → String → HookExecutionResult)
    (l : List String) (i : Nat) :
    (executeHooksAux run i l).failedCount =
      ((executeHooksAux run i l).results.filter (fun r => !r.success)).length := by
  induction l generalizing i with
  | nil => simp [executeHooksAux]
  | cons c rest ih =>
      simp only [executeHooksAux]
      by_cases h : goTrimSpace c = ""
      · rw [if_pos h]; simpa using ih (i + 1)
      · rw [if_neg h]
        by_cases hs : (run (i + 1) (goTrimSpace c)).success
        · rw [if_pos hs]; simp [hs, List.filter_cons, ih (i + 1)]
        · rw [if_neg hs]; simp [hs, List.filter_cons, ih (i + 1)]

theorem goIsSpace_goToLowerChar (c : Char) : goIsSpace (goToLowerChar c) = goIsSpace c := by
  unfold goToLowerChar
  split <;> first | decide | rfl

theorem isPrefixL_iff_exists (p : List Char) :
    ∀ l, isPrefixL p l = true ↔ ∃ t, l = p ++ t := by
  induction p with
  | nil => intro l; simp [isPrefixL]
  | cons a as ih =>
      intro l
      cases l with
      | nil => simp [isPrefixL]
      | cons b bs =>
          simp only [isPrefixL, Bool.and_eq_true, beq_iff_eq, ih bs]
          constructor
          · rintro ⟨rfl, t, rfl⟩
            exact ⟨t, rfl⟩
          · rintro ⟨t, ht⟩
            rcases List.cons.injEq .. ▸ ht with ⟨h1, h2⟩
            exact ⟨h1.symm ▸ rfl, t, h2⟩

theorem containsSub_iff_exists (p : List Char) :
    ∀ l, containsSub p l = true ↔ ∃ s t, l = s ++ p ++ t := by
  intro l
  induction l with
  | nil =>
      simp only [containsSub, List.isEmpty_iff]
      constructor
      · rintro rfl; exact ⟨[], [], rfl⟩
      · rintro ⟨s, t, ht⟩
        rcases List.append_eq_nil.mp (List.append_eq_nil.mp ht.symm).1 with ⟨-, h2⟩
        exact h2
  | cons c rest ih =>
      simp only [containsSub, Bool.or_eq_true, isPrefixL_iff_exists, ih]
      constructor
      · rintro (⟨t, ht⟩ | ⟨s, t, ht⟩)
        · exact ⟨[], t, by simpa using ht⟩
        · exact ⟨c :: s, t, by simp [ht]⟩
      · rintro ⟨s, t, ht⟩
        cases s with
        | nil => exact Or.inl ⟨t, by simpa using ht⟩
        | cons s0 ss =>
            right
            refine ⟨ss, t, ?_⟩
            have h2 := ht
            simp only [List.cons_append, List.cons.injEq] at h2
            exact h2.2

theorem containsSub_dropWhile (a : Char) (p : List Char) (ha : goIsSpace a = false) :
    ∀ l, containsSub (a :: p) l = true →
      containsSub (a :: p) (l.dropWhile goIsSpace) = true := by
  intro l
  induction l with
  | nil => simp [containsSub]
  | cons c t ih =>
      intro h
      rcases Bool.or_eq_true .. ▸ (by simpa [containsSub] using h :
          (isPrefixL (a :: p) (c :: t) || containsSub (a :: p) t) = true) with hpre | hsub
      · have hac : a = c := by
          simp only [isPrefixL, Bool.and_eq_true, beq_iff_eq] at hpre
          exact hpre.1
        have hcs : goIsSpace c = false := hac ▸ ha
        rw [List.dropWhile_cons, hcs]
        simpa [containsSub] using Or.inl hpre
      · rw [List.dropWhile_cons]
        by_cases hcs : goIsSpace c
        · simpa [hcs] using ih hsub
        · simp only [hcs]
          simpa [containsSub] using Or.inr hsub

theorem containsSub_reverse (p l : List Char) :
    containsSub p.reverse l.reverse = true ↔ containsSub p l = true := by
  constructor
  · intro h
    rcases (containsSub_iff_exists _ _).mp h with ⟨s, t, ht⟩
    refine (containsSub_iff_exists _ _).mpr ⟨t.reverse, s.reverse, ?_⟩
    have h2 := congrArg List.reverse ht
    simpa [List.reverse_append, List.append_assoc] using h2
  · intro h
    rcases (containsSub_iff_exists _ _).mp h with ⟨s, t, ht⟩
    refine (containsSub_iff_exists _ _).mpr ⟨t.reverse, s.reverse, ?_⟩
    subst ht
    simp [List.reverse_append, List.append_assoc]

theorem containsSub_goTrimList (p l : List Char) (hp : patternOk p = true)
    (h : containsSub p l = true) : containsSub p (goTrimList l) = true := by
  cases p with
  | nil => simp [patternOk] at hp
  | cons a p' =>
      have hrev : ∃ b q, (a :: p').reverse = b :: q := by
        cases hr : (a :: p').reverse with
        | nil => exact absurd (congrArg List.length hr) (by simp)
        | cons b q => exact ⟨b, q, rfl⟩
      rcases hrev with ⟨b, q, hbq⟩
      have hhead : goIsSpace a = false := by
        simp only [patternOk, List.head?_cons] at hp
        cases hl : (a :: p').getLast? with
        | none => rw [hl] at hp; simp at hp
        | some x =>
            rw [hl] at hp
            simp only [Bool.and_eq_true, Bool.not_eq_true'] at hp
            exact hp.1
      have hlast : goIsSpace b = false := by
        have hgl : (a :: p').getLast? = some b := by
          rw [← List.head?_reverse, hbq, List.head?_cons]
        simp only [patternOk, List.head?_cons, hgl, Bool.and_eq_true, Bool.not_eq_true'] at hp
        exact hp.2
      have h1 : containsSub (a :: p') (l.dropWhile goIsSpace) = true :=
        containsSub_dropWhile a p' hhead l h
      have h2 : containsSub (a :: p').reverse (l.dropWhile goIsSpace).reverse = true :=
        (containsSub_reverse _ _).mpr h1
      rw [hbq] at h2
      have h3 : containsSub (b :: q)
          ((l.dropWhile goIsSpace).reverse.dropWhile goIsSpace) = true :=
        containsSub_dropWhile b q hlast _ h2
      have h4 : containsSub (b :: q).reverse
          ((l.dropWhile goIsSpace).reverse.dropWhile goIsSpace).reverse = true :=
        (containsSub_reverse _ _).mpr h3
      have h5 : (b :: q).reverse = a :: p' := by
        rw [← hbq, List.reverse_reverse]
      rw [h5] at h4
      exact h4

theorem dropWhile_map_lower (l : List Char) :
    (l.map goToLowerChar).dropWhile goIsSpace =
      (l.dropWhile goIsSpace).map goToLowerChar := by
  induction l with
  | nil => simp
  | cons c t ih =>
      simp only [List.map_cons, List.dropWhile_cons, goIsSpace_goToLowerChar]
      by_cases h : goIsSpace c
      · simp [h, ih]
      · simp [h]

theorem goTrimList_map_lower (l : List Char) :
    goTrimList (l.map goToLowerChar) = (goTrimList l).map goToLowerChar := by
  unfold goTrimList
  rw [dropWhile_map_lower, ← List.map_reverse, dropWhile_map_lower, ← List.map_reverse]

theorem securityPatterns_ok : ∀ p ∈ securityPatternStrings, patternOk p.data = true := by
  decide

theorem validateCommandSecurity_isSome (ht : String) (i : Nat) (cmd : String) :
    (validateCommandSecurity ht i cmd).isSome =
      (firstSecurityIssue (goToLower cmd)).isSome := by
  unfold validateCommandSecurity
  cases firstSecurityIssue (goToLower cmd) <;> rfl

theorem firstSecurityIssue_isSome (cl : String) (p : String)
    (hp : p ∈ securityPatternStrings) (hc : goContainsStr cl p = true) :
    (firstSecurityIssue cl).isSome = true := by
  unfold firstSecurityIssue
  cases h1 : dangerousPatterns.find? (fun pr => goContainsStr cl pr.1) with
  | some pr => rfl
  | none =>
  cases h2 : suspiciousNetworkPatterns.find? (fun q => goContainsStr cl q) with
  | some q => rfl
  | none =>
  cases h3 : privilegePatterns.find? (fun q => goContainsStr cl q) with
  | some q => rfl
  | none =>
  cases h4 : systemModificationPatterns.find? (fun q => goContainsStr cl q) with
  | some q => rfl
  | none =>
      exfalso
      have hno1 := List.find?_eq_none.mp h1
      have hno2 := List.find?_eq_none.mp h2
      have hno3 := List.find?_eq_none.mp h3
      have hno4 := List.find?_eq_none.mp h4
      rcases List.mem_append.mp hp with hp' | hp4
      · rcases List.mem_append.mp hp' with hp'' | hp3
        · rcases List.mem_append.mp hp'' with hp1 | hp2
          · rcases List.mem_map.mp hp1 with ⟨pr, hpr, hfst⟩
            exact hno1 pr hpr (by rw [hfst]; simpa using hc)
          · exact hno2 p hp2 (by simpa using hc)
        · exact hno3 p hp3 (by simpa using hc)
      · exact hno4 p hp4 (by simpa using hc)

theorem validateCmdsAux_isSome (ht : String) :
    ∀ (cmds seen : List String) (i : Nat),
      (∃ cmd ∈ cmds, (firstSecurityIssue (goToLower (goTrimSpace cmd))).isSome = true) →
      (validateCmdsAux ht seen i cmds).isSome = true := by
  intro cmds
  induction cmds with
  | nil =>
      rintro seen i ⟨c, hc, -⟩
      exact absurd hc (List.not_mem_nil c)
  | cons cmd rest ih =>
      rintro seen i ⟨c, hc, hsec⟩
      unfold validateCmdsAux
      by_cases hws : startsWithWS cmd = true
      · rw [if_pos hws]; rfl
      · rw [if_neg hws]
        by_cases hemp : goTrimSpace cmd = ""
        · rw [if_pos hemp]; rfl
        · rw [if_neg hemp]
          by_cases hdup : seen.contains (goTrimSpace cmd) = true
          · rw [if_pos hdup]; rfl
          · rw [if_neg hdup]
            by_cases hlong : 1000 < (goTrimSpace cmd).utf8ByteSize
            · rw [if_pos hlong]; rfl
            · rw [if_neg hlong]
              cases hs : validateCommandSecurity ht i (goTrimSpace cmd) with
              | some e => rfl
              | none =>
                  cases hf : validateCommandFormat ht i (goTrimSpace cmd) with
                  | some e => rfl
                  | none =>
                      rcases List.mem_cons.mp hc with rfl | hcrest
                      · exfalso
                        have hx : (validateCommandSecurity ht i (goTrimSpace c)).isSome = true := by
                          rw [validateCommandSecurity_isSome]; exact hsec
                        rw [hs] at hx
                        exact Bool.false_ne_true hx
                      · exact ih (goTrimSpace cmd :: seen) (i + 1) ⟨c, hcrest, hsec⟩

theorem claimSubstrings_subset :
    ∀ p ∈ claimDangerousSubstrings, p ∈ securityPatternStrings := by decide

theorem goContainsStr_trim_lower (cmd p : String)
    (hpok : patternOk p.data = true)
    (hc : goContainsStr (goToLower cmd) p = true) :
    goContainsStr (goToLower (goTrimSpace cmd)) p = true := by
  show containsSub p.data (goToLower (goTrimSpace cmd)).data = true
  have hdata : (goToLower (goTrimSpace cmd)).data =
      goTrimList (cmd.data.map goToLowerChar) := by
    show (goTrimList cmd.data).map goToLowerChar = goTrimList (cmd.data.map goToLowerChar)
    rw [goTrimList_map_lower]
  rw [hdata]
  exact containsSub_goTrimList p.data _ hpok hc

theorem hasNewConflicts_self (l : List ConflictInfo) : HasNewConflicts l l = false := by
  unfold HasNewConflicts
  rw [List.any_eq_false]
  intro c hc
  by_cases hlen : 0 < c.conflictFiles.length
  · have hmem : c.branch ∈
        ((l.filter (fun c => decide (0 < c.conflictFiles.length))).map (fun c => c.branch)) :=
      List.mem_map.mpr ⟨c, List.mem_filter.mpr ⟨hc, by simpa using hlen⟩, rfl⟩
    simp [hlen, hmem]
  · simp [hlen]

theorem checkBranchConflicts_branch (wt : WorktreeInfo) (t : Nat) (o : ProbeOutcome)
    (ci : ConflictInfo) (h : checkBranchConflicts wt t o = some ci) :
    ci.branch = wt.branch := by
  cases o with
  | ok => simp [checkBranchConflicts] at h
  | failed out errS msg =>
      simp only [checkBranchConflicts] at h
      by_cases hc : (goContainsStr errS "conflict" || goContainsStr out "conflict") = true
      · rw [if_pos hc] at h
        cases h; rfl
      · rw [if_neg hc] at h
        cases h; rfl

/-! ### Claim theorems -/

/-- C1: for a non-empty command list run in an existing working directory,
`ExecuteHooks` returns a non-nil error exactly when at least one command was
executed and every executed (non-skipped) command failed; a run with at
least one success returns a nil error; `failedCount` records the number of
failed results. -/
theorem execute_hooks_stage_error_iff_all_failed
    (run : Nat → String → HookExecutionResult) (hooks : List String)
    (hookType : String) (hne : hooks ≠ []) :
    ((ExecuteHooks run hooks .ok hookType).isSome = true ↔
      ((executeHooksAux run 0 hooks).results ≠ [] ∧
        (executeHooksAux run 0 hooks).results.all (fun r => !r.success) = true)) ∧
    (0 < (executeHooksAux run 0 hooks).successCount →
      ExecuteHooks run hooks .ok hookType = none) ∧
    (executeHooksAux run 0 hooks).failedCount =
      ((executeHooksAux run 0 hooks).results.filter (fun r => !r.success)).length := by
  have hlen : ¬ hooks.length = 0 := by
    intro h0
    exact hne (List.length_eq_zero.mp h0)
  have hsc := executeHooksAux_successCount run hooks 0
  have hfc := executeHooksAux_failedCount run hooks 0
  have key : ((0 < (executeHooksAux run 0 hooks).failedCount ∧
      (executeHooksAux run 0 hooks).successCount = 0) ↔
      ((executeHooksAux run 0 hooks).results ≠ [] ∧
        (executeHooksAux run 0 hooks).results.all (fun r => !r.success) = true)) := by
    rw [hsc, hfc]
    generalize (executeHooksAux run 0 hooks).results = rs
    simp only [List.all_eq_true, Bool.not_eq_true']
    constructor
    · rintro ⟨hf, hs0⟩
      have hall : ∀ r ∈ rs, r.success = false := by
        intro r hr
        cases hval : r.success
        · rfl
        · exfalso
          have hnil : rs.filter (fun r => r.success) = [] := List.length_eq_zero.mp hs0
          have hmem : r ∈ rs.filter (fun r => r.success) :=
            List.mem_filter.mpr ⟨hr, hval⟩
          rw [hnil] at hmem
          exact List.not_mem_nil r hmem
      refine ⟨?_, hall⟩
      intro hrs
      rw [hrs] at hf
      simp at hf
    · rintro ⟨hne2, hall⟩
      constructor
      · have hfull : rs.filter (fun r => !r.success) = rs :=
          List.filter_eq_self.mpr (fun r hr => by simp [hall r hr])
        rw [hfull]
        exact List.length_pos.mpr hne2
      · have hnil : rs.filter (fun r => r.success) = [] :=
          List.filter_eq_nil_iff.mpr (fun r hr => by simp [hall r hr])
        rw [hnil]
        rfl
  refine ⟨?_, ?_, hfc⟩
  · unfold ExecuteHooks
    rw [if_neg hlen]
    by_cases hcond : ((executeHooksAux run 0 hooks).failedCount > 0 &&
        (executeHooksAux run 0 hooks).successCount == 0) = true
    · rw [if_pos hcond]
      simp only [Option.isSome_some, true_iff]
      rcases Bool.and_eq_true .. ▸ hcond with ⟨hgt, heq⟩
      exact key.mp ⟨by simpa using hgt, by simpa using heq⟩
    · rw [if_neg hcond]
      simp only [Option.isSome_none, Bool.false_eq_true, false_iff]
      intro hcl
      apply hcond
      rcases key.mpr hcl with ⟨hf, hs0⟩
      simp [hf, hs0]
  · intro hpos
    unfold ExecuteHooks
    rw [if_neg hlen]
    have hc0 : ((executeHooksAux run 0 hooks).failedCount > 0 &&
        (executeHooksAux run 0 hooks).successCount == 0) = false := by
      have hnz : (executeHooksAux run 0 hooks).successCount ≠ 0 := by omega
      simp [hnz]
    rw [if_neg (by simp [hc0])]

theorem execute_hooks_stage_error_iff_all_failed_witness :
    (["false"] : List String) ≠ [] ∧
    (((ExecuteHooks (fun i c => ⟨i, c, false, 1, 1, "", "", some "boom", false⟩)
          ["false"] .ok "post_create").isSome = true ↔
        ((executeHooksAux (fun i c => ⟨i, c, false, 1, 1, "", "", some "boom", false⟩) 0
            ["false"]).results ≠ [] ∧
          (executeHooksAux (fun i c => ⟨i, c, false, 1, 1, "", "", some "boom", false⟩) 0
            ["false"]).results.all (fun r => !r.success) = true)) ∧
      (0 < (executeHooksAux (fun i c => ⟨i, c, false, 1, 1, "", "", some "boom", false⟩) 0
          ["false"]).successCount →
        ExecuteHooks (fun i c => ⟨i, c, false, 1, 1, "", "", some "boom", false⟩)
          ["false"] .ok "post_create" = none) ∧
      (executeHooksAux (fun i c => ⟨i, c, false, 1, 1, "", "", some "boom", false⟩) 0
          ["false"]).failedCount =
        ((executeHooksAux (fun i c => ⟨i, c, false, 1, 1, "", "", some "boom", false⟩) 0
            ["false"]).results.filter (fun r => !r.success)).length) :=
  ⟨by decide,
    execute_hooks_stage_error_iff_all_failed
      (fun i c => ⟨i, c, false, 1, 1, "", "", some "boom", false⟩)
      ["false"] "post_create" (by decide)⟩

/-- C2: a command whose execution hits the timeout branch is recorded with
`timedOut = true`, `exitCode = 124`, `success = false`, and the configured
timeout value itself as the duration. -/
theorem execute_hook_command_timeout_fields (command : String) (index timeout : Nat)
    (so se : String) (h : goTrimSpace command ≠ "") :
    (executeHookCommand command index timeout .timedOut so se).timedOut = true ∧
    (executeHookCommand command index timeout .timedOut so se).exitCode = 124 ∧
    (executeHookCommand command index timeout .timedOut so se).success = false ∧
    (executeHookCommand command index timeout .timedOut so se).duration = timeout := by
  unfold executeHookCommand
  rw [if_neg h]
  exact ⟨rfl, rfl, rfl, rfl⟩

theorem execute_hook_command_timeout_fields_witness :
    goTrimSpace "sleep 120" ≠ "" ∧
    ((executeHookCommand "sleep 120" 1 1000 .timedOut "" "").timedOut = true ∧
     (executeHookCommand "sleep 120" 1 1000 .timedOut "" "").exitCode = 124 ∧
     (executeHookCommand "sleep 120" 1 1000 .timedOut "" "").success = false ∧
     (executeHookCommand "sleep 120" 1 1000 .timedOut "" "").duration = 1000) :=
  ⟨by decide, execute_hook_command_timeout_fields "sleep 120" 1 1000 "" "" (by decide)⟩

/-- C3: a hook command containing one of the known-dangerous substrings
(matched case-insensitively) is rejected by `validateCommandSecurity`, and
because configuration validation runs at load time before any execution, a
hook list containing such a command never reaches the runner: the
load-then-execute pipeline produces no execution results. -/
theorem dangerous_command_validation_blocks_execution
    (run : Nat → String → HookExecutionResult) (hookType : String) (i : Nat)
    (hooks : List String) (cmd p : String)
    (hp : p ∈ claimDangerousSubstrings) (hc : goContainsStr (goToLower cmd) p = true)
    (hm : cmd ∈ hooks) :
    (validateCommandSecurity hookType i cmd).isSome = true ∧
    loadThenExecute run hooks = [] := by
  have hp2 : p ∈ securityPatternStrings := claimSubstrings_subset p hp
  have hpok : patternOk p.data = true := securityPatterns_ok p hp2
  constructor
  · rw [validateCommandSecurity_isSome]
    exact firstSecurityIssue_isSome _ p hp2 hc
  · have htrim : goContainsStr (goToLower (goTrimSpace cmd)) p = true :=
      goContainsStr_trim_lower cmd p hpok hc
    have hv : (validateHookCommands "post_create" hooks).isSome = true := by
      apply validateCmdsAux_isSome "post_create" hooks [] 0
      exact ⟨cmd, hm, firstSecurityIssue_isSome _ p hp2 htrim⟩
    unfold loadThenExecute
    cases hvh : validateHookCommands "post_create" hooks with
    | some e => rfl
    | none => rw [hvh] at hv; exact absurd hv (by simp)

theorem dangerous_command_validation_blocks_execution_witness :
    "rm -rf /" ∈ claimDangerousSubstrings ∧
    goContainsStr (goToLower "RM -RF / now") "rm -rf /" = true ∧
    "RM -RF / now" ∈ (["echo ok", "RM -RF / now"] : List String) ∧
    ((validateCommandSecurity "post_create" 1 "RM -RF / now").isSome = true ∧
      loadThenExecute (fun i c => ⟨i, c, true, 1, 0, "", "", none, false⟩)
        ["echo ok", "RM -RF / now"] = []) :=
  ⟨by decide, by decide, by decide,
    dangerous_command_validation_blocks_execution
      (fun i c => ⟨i, c, true, 1, 0, "", "", none, false⟩) "post_create" 1
      ["echo ok", "RM -RF / now"] "RM -RF / now" "rm -rf /"
      (by decide) (by decide) (by decide)⟩

/-- C4 counterexample: when a new conflicting branch appears next to an old
one, `performCheck` dispatches notifications for the whole current conflict
set, not only for the newly-appeared conflicts the claim describes. -/
theorem notify_forwards_full_set_not_only_delta :
    (performCheck (fun _ _ => false) (some ⟨true, []⟩) "system"
        (.ok [⟨"a", "/wa", ["f.go"], 1, ""⟩, ⟨"b", "/wb", ["g.go"], 1, ""⟩]) 9
        ⟨0, [], [⟨"a", "/wa", ["f.go"], 1, ""⟩], 5⟩).2 ≠
      (specNewlyAppeared [⟨"a", "/wa", ["f.go"], 1, ""⟩]
        [⟨"a", "/wa", ["f.go"], 1, ""⟩, ⟨"b", "/wb", ["g.go"], 1, ""⟩]).map conflictMessage := by
  decide

/-- C4 (amended): identical consecutive conflict sets dispatch nothing; when
`HasNewConflicts` detects a newly-appeared conflicting branch, the entire
current conflict list (each entry with a non-empty file list that is not
ignored) is forwarded, gated by the notify switch, glob ignore patterns and
the notify method; going from an empty previous set to one conflicting
branch yields exactly one notification naming that branch. -/
theorem scan_delta_notification_behavior (globMatch : String → String → Bool)
    (cfg : Option WatchCfg) (notifyMethod : String) (now : Nat) (st : WatchState)
    (conflicts : List ConflictInfo) (ci : ConflictInfo) (ignores : List String) :
    (st.currentConflicts = conflicts →
      (performCheck globMatch cfg notifyMethod (.ok conflicts) now st).2 = []) ∧
    (HasNewConflicts st.currentConflicts conflicts = true →
      (performCheck globMatch cfg notifyMethod (.ok conflicts) now st).2 =
        notifyConflicts globMatch cfg notifyMethod conflicts) ∧
    (st.currentConflicts = [] → ci.conflictFiles ≠ [] →
      shouldIgnoreBranch globMatch (some ⟨true, ignores⟩) ci.branch = false →
      (performCheck globMatch (some ⟨true, ignores⟩) "system" (.ok [ci]) now st).2 =
        [conflictMessage ci]) := by
  refine ⟨?_, ?_, ?_⟩
  · intro hsame
    simp only [performCheck, hsame, hasNewConflicts_self, Bool.false_eq_true, if_false]
  · intro hnew
    simp only [performCheck, hnew, if_true]
  · intro hemp hfiles hign
    have hlen : 0 < ci.conflictFiles.length := List.length_pos.mpr hfiles
    have hnew : HasNewConflicts st.currentConflicts [ci] = true := by
      rw [hemp]
      simp [HasNewConflicts, hlen]
    simp only [performCheck, hnew, if_true]
    simp [notifyConflicts, hlen, hign]

theorem scan_delta_notification_behavior_witness :
    (⟨0, [], [], 0⟩ : WatchState).currentConflicts = [] ∧
    (⟨"feature/x", "/w", ["a.go"], 1, ""⟩ : ConflictInfo).conflictFiles ≠ [] ∧
    shouldIgnoreBranch (fun _ _ => false) (some ⟨true, []⟩) "feature/x" = false ∧
    (performCheck (fun _ _ => false) (some ⟨true, []⟩) "system"
        (.ok [⟨"feature/x", "/w", ["a.go"], 1, ""⟩]) 2 ⟨0, [], [], 0⟩).2 =
      [conflictMessage ⟨"feature/x", "/w", ["a.go"], 1, ""⟩] :=
  ⟨rfl, by decide, by decide,
    (scan_delta_notification_behavior (fun _ _ => false) none "system" 2 ⟨0, [], [], 0⟩ []
        ⟨"feature/x", "/w", ["a.go"], 1, ""⟩ []).2.2 rfl (by decide) (by decide)⟩

/-- C5 counterexample: a probe failure whose diagnostic text mentions
"conflict" but carries no parseable "CONFLICT ... in file" line is classified
as a conflict (no error recorded) yet gets an empty `conflictFiles` list,
refuting the claimed equivalence. -/
theorem conflict_classified_with_empty_file_list :
    checkBranchConflicts ⟨"/w", "feat", "c1"⟩ 7
        (.failed "" "merge conflict" "exit status 1") =
      some { branch := "feat", worktreePath := "/w", conflictFiles := [],
             lastChecked := 7, error := "" } := by
  decide

/-- C5 (amended): an error-carrying entry always has an empty file list (a
scan failure, not a conflict), and an entry with a non-empty file list is
always a conflict-classified entry with no error; but a conflict-classified
branch may still get an empty file list when the diagnostic text has no
parseable CONFLICT line, so non-empty files only follow from the probe
output, not from the classification alone. -/
theorem conflict_files_error_dichotomy (wt : WorktreeInfo) (t : Nat)
    (o : ProbeOutcome) (ci : ConflictInfo) :
    (checkBranchConflicts wt t o = some ci → ci.error ≠ "" → ci.conflictFiles = []) ∧
    (checkBranchConflicts wt t o = some ci → ci.conflictFiles ≠ [] → ci.error = "") ∧
    (∀ out errS msg, o = .failed out errS msg →
      checkBranchConflicts wt t o = some ci → ci.conflictFiles ≠ [] →
      (goContainsStr errS "conflict" || goContainsStr out "conflict") = true) := by
  cases o with
  | ok => simp [checkBranchConflicts]
  | failed out errS msg =>
      simp only [checkBranchConflicts]
      by_cases hc : (goContainsStr errS "conflict" || goContainsStr out "conflict") = true
      · rw [if_pos hc]
        refine ⟨?_, ?_, ?_⟩
        · rintro h herr
          cases h
          exact absurd rfl herr
        · rintro h _
          cases h
          rfl
        · rintro out2 errS2 msg2 heq h _
          cases heq
          exact hc
      · rw [if_neg hc]
        refine ⟨?_, ?_, ?_⟩
        · rintro h _
          cases h
          rfl
        · rintro h hfiles
          cases h
          exact absurd rfl hfiles
        · rintro out2 errS2 msg2 heq h hfiles
          cases heq
          cases h
          exact absurd rfl hfiles

theorem conflict_files_error_dichotomy_witness :
    checkBranchConflicts ⟨"/w2", "feature", "c2"⟩ 3
        (.failed "CONFLICT (content): Merge conflict in a.go" "" "exit status 1") =
      some ⟨"feature", "/w2", ["a.go"], 3, ""⟩ ∧
    (⟨"feature", "/w2", ["a.go"], 3, ""⟩ : ConflictInfo).conflictFiles ≠ [] ∧
    (⟨"feature", "/w2", ["a.go"], 3, ""⟩ : ConflictInfo).error = "" ∧
    (goContainsStr "" "conflict" ||
      goContainsStr "CONFLICT (content): Merge conflict in a.go" "conflict") = true :=
  ⟨by decide, by decide,
    (conflict_files_error_dichotomy ⟨"/w2", "feature", "c2"⟩ 3
        (.failed "CONFLICT (content): Merge conflict in a.go" "" "exit status 1")
        ⟨"feature", "/w2", ["a.go"], 3, ""⟩).2.1 (by decide) (by decide),
    (conflict_files_error_dichotomy ⟨"/w2", "feature", "c2"⟩ 3
        (.failed "CONFLICT (content): Merge conflict in a.go" "" "exit status 1")
        ⟨"feature", "/w2", ["a.go"], 3, ""⟩).2.2
      "CONFLICT (content): Merge conflict in a.go" "" "exit status 1"
      rfl (by decide) (by decide)⟩

/-- C6: the conflict scan emits no entry for a detached-HEAD worktree (empty
branch) or for the worktree on the main branch: every emitted entry carries
a branch that is neither empty nor the main branch. -/
theorem scan_excludes_main_and_detached (outcomeOf : WorktreeInfo → ProbeOutcome)
    (worktrees : List WorktreeInfo) (mainBranch : String) (checkTime : Nat) :
    ∀ ci ∈ checkRebaseConflicts outcomeOf worktrees mainBranch checkTime,
      ci.branch ≠ "" ∧ ci.branch ≠ mainBranch := by
  induction worktrees with
  | nil => intro ci h; simp [checkRebaseConflicts] at h
  | cons wt rest ih =>
      intro ci hci
      unfold checkRebaseConflicts at hci ih
      rw [List.foldr_cons] at hci
      by_cases hskip : wt.branch = "" ∨ wt.branch = mainBranch
      · rw [if_pos hskip] at hci
        exact ih ci hci
      · rw [if_neg hskip] at hci
        push_neg at hskip
        cases hprobe : checkBranchConflicts wt checkTime (outcomeOf wt) with
        | none => rw [hprobe] at hci; exact ih ci hci
        | some ci0 =>
            rw [hprobe] at hci
            rcases List.mem_cons.mp hci with rfl | hrest
            · have hb := checkBranchConflicts_branch wt checkTime (outcomeOf wt) ci hprobe
              rw [hb]
              exact hskip
            · exact ih ci hrest

theorem scan_excludes_main_and_detached_witness :
    (⟨"feat", "/f", [], 1, ""⟩ : ConflictInfo) ∈
      checkRebaseConflicts (fun _ => .failed "" "conflict" "x")
        [⟨"/m", "main", "c0"⟩, ⟨"/d", "", "c1"⟩, ⟨"/f", "feat", "c2"⟩] "main" 1 ∧
    ((⟨"feat", "/f", [], 1, ""⟩ : ConflictInfo).branch ≠ "" ∧
     (⟨"feat", "/f", [], 1, ""⟩ : ConflictInfo).branch ≠ "main") :=
  ⟨by decide,
    scan_excludes_main_and_detached (fun _ => .failed "" "conflict" "x")
      [⟨"/m", "main", "c0"⟩, ⟨"/d", "", "c1"⟩, ⟨"/f", "feat", "c2"⟩] "main" 1
      ⟨"feat", "/f", [], 1, ""⟩ (by decide)⟩

/-- C7: a blank (whitespace-only) command inside a stage is skipped: relative
to running the surrounding commands at their original positions, it adds one
to `skippedCount`, contributes no result entry, is never counted as failed,
and the commands after it still run. -/
theorem blank_command_skipped_not_failed (run : Nat → String → HookExecutionResult)
    (i : Nat) (l₁ l₂ : List String) (b : String) (hb : goTrimSpace b = "") :
    executeHooksAux run i (l₁ ++ b :: l₂) =
      mergeState (executeHooksAux run i l₁)
        (let s := executeHooksAux run (i + l₁.length + 1) l₂
         { s with skippedCount := s.skippedCount + 1 }) := by
  rw [executeHooksAux_append]
  congr 1
  show executeHooksAux run (i + l₁.length) (b :: l₂) = _
  simp only [executeHooksAux]
  rw [if_pos hb]

theorem blank_command_skipped_not_failed_witness :
    goTrimSpace " " = "" ∧
    executeHooksAux (fun i c => ⟨i, c, true, 1, 0, "", "", none, false⟩) 0
        (["echo a"] ++ " " :: ["echo b"]) =
      mergeState (executeHooksAux (fun i c => ⟨i, c, true, 1, 0, "", "", none, false⟩) 0
          ["echo a"])
        (let s := executeHooksAux (fun i c => ⟨i, c, true, 1, 0, "", "", none, false⟩)
            (0 + (["echo a"] : List String).length + 1) ["echo b"]
         { s with skippedCount := s.skippedCount + 1 }) :=
  ⟨by decide,
    blank_command_skipped_not_failed (fun i c => ⟨i, c, true, 1, 0, "", "", none, false⟩)
      0 ["echo a"] ["echo b"] " " (by decide)⟩

/-- C8: main-branch resolution returns the first hit of: local "main", local
"master", the remote origin symbolic default (trimmed and stripped of its
ref prefix), then the hard-coded fallback "main"; and it never returns an
error. -/
theorem main_branch_resolution_order (localExists : String → Bool)
    (originHead : Option String) :
    (getMainBranch localExists originHead).2 = none ∧
    (localExists "main" = true → getMainBranch localExists originHead = ("main", none)) ∧
    (localExists "main" = false → localExists "master" = true →
      getMainBranch localExists originHead = ("master", none)) ∧
    (localExists "main" = false → localExists "master" = false →
      ∀ out, originHead = some out →
        getMainBranch localExists originHead =
          (goTrimPre (goTrimSpace out) "refs/remotes/origin/", none)) ∧
    (localExists "main" = false → localExists "master" = false → originHead = none →
      getMainBranch localExists originHead = ("main", none)) := by
  by_cases h1 : localExists "main" = true
  · refine ⟨?_, fun _ => ?_, fun hf _ => absurd h1 (by simp [hf]), ?_, ?_⟩
    · simp [getMainBranch, List.find?, h1]
    · simp [getMainBranch, List.find?, h1]
    · intro hf; exact absurd h1 (by simp [hf])
    · intro hf; exact absurd h1 (by simp [hf])
  · have h1f : localExists "main" = false := by
      cases hx : localExists "main"
      · rfl
      · exact absurd hx h1
    by_cases h2 : localExists "master" = true
    · refine ⟨?_, fun ht => absurd ht (by simp [h1f]), fun _ _ => ?_, ?_, ?_⟩
      · simp [getMainBranch, List.find?, h1f, h2]
      · simp [getMainBranch, List.find?, h1f, h2]
      · intro _ hf; exact absurd h2 (by simp [hf])
      · intro _ hf; exact absurd h2 (by simp [hf])
    · have h2f : localExists "master" = false := by
        cases hx : localExists "master"
        · rfl
        · exact absurd hx h2
      cases originHead with
      | none =>
          refine ⟨?_, fun ht => absurd ht (by simp [h1f]),
            fun _ ht => absurd ht (by simp [h2f]), ?_, fun _ _ _ => ?_⟩
          · simp [getMainBranch, List.find?, h1f, h2f]
          · intro _ _ out hout; exact absurd hout (by simp)
          · simp [getMainBranch, List.find?, h1f, h2f]
      | some o =>
          refine ⟨?_, fun ht => absurd ht (by simp [h1f]),
            fun _ ht => absurd ht (by simp [h2f]), ?_,
            fun _ _ hn => absurd hn (by simp)⟩
          · simp [getMainBranch, List.find?, h1f, h2f]
          · intro _ _ out hout
            cases hout
            simp [getMainBranch, List.find?, h1f, h2f]

theorem main_branch_resolution_order_witness :
    (fun b => b == "master") "main" = false ∧
    (fun b => b == "master") "master" = true ∧
    getMainBranch (fun b => b == "master") (some "refs/remotes/origin/dev\n") =
      ("master", none) :=
  ⟨by decide, by decide,
    (main_branch_resolution_order (fun b => b == "master")
        (some "refs/remotes/origin/dev\n")).2.2.1 (by decide) (by decide)⟩

/-- C9: an empty command list makes `ExecuteHooks` return nil at once,
before the working-directory check; a missing working directory is reported
as a stage failure only when at least one command is configured. -/
theorem empty_hooks_skip_workdir_existence (run : Nat → String → HookExecutionResult)
    (stat : StatOutcome) (hookType : String) :
    ExecuteHooks run [] stat hookType = none ∧
    (∀ hooks : List String, hooks ≠ [] →
      ExecuteHooks run hooks .notExist hookType =
        some "hook execution failed: working directory does not exist") := by
  constructor
  · rfl
  · intro hooks hne
    have hlen : ¬ hooks.length = 0 := fun h0 => hne (List.length_eq_zero.mp h0)
    unfold ExecuteHooks
    rw [if_neg hlen]

theorem empty_hooks_skip_workdir_existence_witness :
    ExecuteHooks (fun i c => ⟨i, c, true, 1, 0, "", "", none, false⟩) [] .notExist
      "post_create" = none ∧
    (["false"] : List String) ≠ [] ∧
    ExecuteHooks (fun i c => ⟨i, c, true, 1, 0, "", "", none, false⟩) ["false"] .notExist
      "post_create" = some "hook execution failed: working directory does not exist" :=
  ⟨(empty_hooks_skip_workdir_existence (fun i c => ⟨i, c, true, 1, 0, "", "", none, false⟩)
      .notExist "post_create").1,
   by decide,
   (empty_hooks_skip_workdir_existence (fun i c => ⟨i, c, true, 1, 0, "", "", none, false⟩)
      .notExist "post_create").2 ["false"] (by decide)⟩

/-- C10: when the scan inside `performCheck` fails, the only state change is
the check counter incremented at the start of the check; `lastCheck`,
`lastConflicts` and `currentConflicts` keep their values and nothing is
dispatched; and the counter is incremented for every initiated check,
completed or not. -/
theorem perform_check_scan_error_frame (globMatch : String → String → Bool)
    (cfg : Option WatchCfg) (notifyMethod : String) (e : String) (now : Nat)
    (st : WatchState) :
    performCheck globMatch cfg notifyMethod (.error e) now st =
      ({ st with checkCount := st.checkCount + 1 }, []) ∧
    (∀ scanResult,
      (performCheck globMatch cfg notifyMethod scanResult now st).1.checkCount =
        st.checkCount + 1) := by
  constructor
  · rfl
  · intro r
    cases r <;> rfl

end Workie
